import Mathlib

/-!
Verification of the `Keccak` hasher of this repository (`src/keccak.rs`).

The repository file under verification contains the `Keccak` struct with its
four constructors and the two conditionally compiled `update`/`finalize`
pairs: the general-purpose pair that delegates directly to the sponge state
engine, and the zkVM pair that buffers raw input up to a 100 000-byte
threshold, committing irreversibly to the sponge slow path when the
threshold would be exceeded, and otherwise calling an external accelerated
digest primitive at finalization.

The sponge state engine (`KeccakState`), the `bits_to_rate` mapping and the
external accelerated primitive are collaborators that live outside the file
under verification; they are modelled from the specification, as noted on
each such definition.  Bytes are modelled as `Nat`, byte buffers as
`List Nat`, and the 1600-bit permutation is an explicit parameter
`perm : List Nat → List Nat` of every operation that drives it, so every
theorem below holds for the actual Keccak-f permutation in particular.
-/

/-- XOR the byte `b` into position `i` of the buffer `buf` (out-of-range
positions are left unchanged, matching in-bounds use in the engine). -/
def xorByteAt (buf : List Nat) (i : Nat) (b : Nat) : List Nat :=
  buf.set i (Nat.xor (buf.getD i 0) b)

/-- The sponge engine state: a 200-byte state buffer, the cursor into the
current block, the configured rate and the domain-separation delimiter. -/
structure SpongeState where
  buffer : List Nat
  offset : Nat
  rate : Nat
  delim : Nat

/-- Modelled from the spec: one byte-absorption step of the Sponge State
Engine (`KeccakState::update` is not part of the file under verification).
The byte is XORed into the state buffer at the cursor; when the cursor
reaches `rate` the permutation runs and the cursor resets to 0. -/
def SpongeState.absorb (perm : List Nat → List Nat) (s : SpongeState) (b : Nat) :
    SpongeState :=
  if s.offset + 1 = s.rate then
    { s with buffer := perm (xorByteAt s.buffer s.offset b), offset := 0 }
  else
    { s with buffer := xorByteAt s.buffer s.offset b, offset := s.offset + 1 }

/-- Modelled from the spec: the Sponge State Engine's `update`, absorbing an
arbitrary byte slice byte by byte. -/
def SpongeState.update (perm : List Nat → List Nat) (s : SpongeState)
    (input : List Nat) : SpongeState :=
  input.foldl (SpongeState.absorb perm) s

/-- Modelled from the spec: the squeeze loop — copy up to `rate` bytes per
block from the state buffer, permuting between blocks while more output is
requested than remains unread. -/
def squeeze (perm : List Nat → List Nat) (rate outLen : Nat) (buf : List Nat) :
    List Nat :=
  if hOr : outLen ≤ rate ∨ rate = 0 then
    buf.take outLen
  else
    buf.take rate ++ squeeze perm rate (outLen - rate) (perm buf)
termination_by outLen
decreasing_by push_neg at hOr; omega

/-- Modelled from the spec: the Sponge State Engine's `finalize` — XOR the
delimiter at the cursor and `0x80` at byte `rate - 1`, permute once, then
squeeze `outLen` bytes. -/
def SpongeState.finalize (perm : List Nat → List Nat) (s : SpongeState)
    (outLen : Nat) : List Nat :=
  squeeze perm s.rate outLen
    (perm (xorByteAt (xorByteAt s.buffer s.offset s.delim) (s.rate - 1) 0x80))

/-- Modelled from the spec: a freshly constructed sponge state — zeroed
200-byte buffer, cursor 0, with the given rate and delimiter. -/
def initSponge (rate delim : Nat) : SpongeState :=
  { buffer := List.replicate 200 0, offset := 0, rate := rate, delim := delim }

/-- The digest the plain Sponge State Engine produces for `data` in one run:
absorb everything, then pad and squeeze `outLen` bytes. -/
def plainDigest (perm : List Nat → List Nat) (rate delim : Nat)
    (data : List Nat) (outLen : Nat) : List Nat :=
  SpongeState.finalize perm (SpongeState.update perm (initSponge rate delim) data) outLen

/-- Modelled from the spec: the security-level-to-rate mapping,
`rate = 200 - 2*(bits/8)` bytes (`bits_to_rate` is not part of the file
under verification). -/
def bits_to_rate (bits : Nat) : Nat := 200 - 2 * (bits / 8)

/-- The `Keccak` hasher struct, with the two zkVM-only fields `raw_data`
and `slow_path` (on non-zkVM targets those fields are simply never used). -/
structure Keccak where
  state : SpongeState
  raw_data : List Nat
  slow_path : Bool

/-- The domain-separation delimiter of the `Keccak` variants. -/
def Keccak.DELIM : Nat := 0x01

/-- `Keccak::new`: sponge configured with `bits_to_rate bits` and `DELIM`,
empty raw buffer, committed flag clear. -/
def Keccak.new (bits : Nat) : Keccak :=
  { state := initSponge (bits_to_rate bits) Keccak.DELIM
    raw_data := []
    slow_path := false }

/-- `Keccak::v224`. -/
def Keccak.v224 : Keccak := Keccak.new 224

/-- `Keccak::v256`. -/
def Keccak.v256 : Keccak := Keccak.new 256

/-- `Keccak::v384`. -/
def Keccak.v384 : Keccak := Keccak.new 384

/-- `Keccak::v512`. -/
def Keccak.v512 : Keccak := Keccak.new 512

/-- The zkVM `update` (src/keccak.rs lines 88–103): while uncommitted, either
append to the raw buffer or — if that would push past 100 000 bytes — set the
committed flag and flush the raw buffer into the sponge; once committed,
forward the input to the sponge directly. -/
def Keccak.update (perm : List Nat → List Nat) (k : Keccak)
    (input : List Nat) : Keccak :=
  let k1 :=
    if !k.slow_path then
      if k.raw_data.length + input.length > 100000 then
        { k with slow_path := true
                 state := SpongeState.update perm k.state k.raw_data }
      else
        { k with raw_data := k.raw_data ++ input }
    else k
  if k1.slow_path then
    { k1 with state := SpongeState.update perm k1.state input }
  else k1

/-- Outcome of the zkVM `finalize`: a digest written to the output buffer, a
fatal abort from the external primitive (the `unwrap` on its error), or the
abort of `clone_from_slice` on an output buffer of the wrong length. -/
inductive FinalizeResult where
  | ok (digest : List Nat)
  | fatal
  | panicked

/-- The zkVM `finalize` (src/keccak.rs lines 124–131): on the slow path
delegate to the sponge; otherwise call the external accelerated primitive
`kd` on the whole raw buffer with `DELIM` and copy its digest into the
output buffer of length `outLen` (the copy aborts unless the lengths agree;
a primitive error aborts fatally). -/
def Keccak.finalize (perm : List Nat → List Nat)
    (kd : List Nat → Nat → Option (List Nat)) (k : Keccak) (outLen : Nat) :
    FinalizeResult :=
  if k.slow_path then
    FinalizeResult.ok (SpongeState.finalize perm k.state outLen)
  else
    match kd k.raw_data Keccak.DELIM with
    | none => FinalizeResult.fatal
    | some d => if d.length = outLen then FinalizeResult.ok d else FinalizeResult.panicked

/-- The non-zkVM `update` (src/keccak.rs lines 83–86): delegate to the
sponge engine directly. -/
def Keccak.updateHost (perm : List Nat → List Nat) (k : Keccak)
    (input : List Nat) : Keccak :=
  { k with state := SpongeState.update perm k.state input }

/-- The non-zkVM `finalize` (src/keccak.rs lines 119–122): delegate to the
sponge engine directly. -/
def Keccak.finalizeHost (perm : List Nat → List Nat) (k : Keccak)
    (outLen : Nat) : List Nat :=
  SpongeState.finalize perm k.state outLen

/-- Run a sequence of zkVM `update` calls. -/
def runUpdates (perm : List Nat → List Nat) (k : Keccak)
    (inputs : List (List Nat)) : Keccak :=
  inputs.foldl (Keccak.update perm) k

/-- Run a sequence of non-zkVM `update` calls. -/
def runHost (perm : List Nat → List Nat) (k : Keccak)
    (inputs : List (List Nat)) : Keccak :=
  inputs.foldl (Keccak.updateHost perm) k

/-- Run a sequence of plain Sponge State Engine `update` calls. -/
def runSponge (perm : List Nat → List Nat) (s : SpongeState)
    (inputs : List (List Nat)) : SpongeState :=
  inputs.foldl (SpongeState.update perm) s

/-- Concatenation of a sequence of update inputs. -/
def concatAll : List (List Nat) → List Nat
  | [] => []
  | i :: rest => i ++ concatAll rest

/-- The reachability invariant of the zkVM hasher after absorbing `acc` in
total, starting from sponge state `s0` with an empty raw buffer: either
still uncommitted with the raw buffer holding exactly `acc` (at most the
threshold) and the sponge untouched, or committed with the sponge having
absorbed exactly `acc` and the raw buffer frozen at at most the threshold. -/
def ZkInv (perm : List Nat → List Nat) (s0 : SpongeState) (acc : List Nat)
    (k : Keccak) : Prop :=
  (k.slow_path = false ∧ k.raw_data = acc ∧ k.state = s0 ∧ acc.length ≤ 100000)
  ∨ (k.slow_path = true ∧ k.state = SpongeState.update perm s0 acc
      ∧ k.raw_data.length ≤ 100000)

/-- A concrete permutation used to instantiate theorems at concrete inputs:
it always returns a 200-byte buffer. -/
def cperm : List Nat → List Nat := fun _ => List.replicate 200 0

/-! ### Helper lemmas -/

theorem stateUpdate_append (perm : List Nat → List Nat) (s : SpongeState)
    (a b : List Nat) :
    SpongeState.update perm s (a ++ b)
      = SpongeState.update perm (SpongeState.update perm s a) b := by
  simp [SpongeState.update, List.foldl_append]

theorem rate_absorb (perm : List Nat → List Nat) (s : SpongeState) (b : Nat) :
    (SpongeState.absorb perm s b).rate = s.rate := by
  unfold SpongeState.absorb
  split <;> rfl

theorem rate_stateUpdate (perm : List Nat → List Nat) :
    ∀ (input : List Nat) (s : SpongeState),
      (SpongeState.update perm s input).rate = s.rate
  | [], _ => rfl
  | b :: rest, s => by
      have h : SpongeState.update perm s (b :: rest)
          = SpongeState.update perm (SpongeState.absorb perm s b) rest := rfl
      rw [h, rate_stateUpdate perm rest, rate_absorb]

theorem squeeze_length (perm : List Nat → List Nat)
    (hperm : ∀ b, (perm b).length = 200) (rate : Nat)
    (h1 : 0 < rate) (h2 : rate ≤ 200) :
    ∀ (outLen : Nat) (buf : List Nat), buf.length = 200 →
      (squeeze perm rate outLen buf).length = outLen := by
  intro outLen
  induction outLen using Nat.strong_induction_on with
  | _ n ih =>
    intro buf hbuf
    rw [squeeze]
    split
    · simp [List.length_take, hbuf]
      omega
    · rename_i hn
      push_neg at hn
      simp [List.length_take, hbuf, ih (n - rate) (by omega) (perm buf) (hperm buf)]
      omega

theorem finalize_length (perm : List Nat → List Nat)
    (hperm : ∀ b, (perm b).length = 200) (s : SpongeState)
    (h1 : 0 < s.rate) (h2 : s.rate ≤ 200) (outLen : Nat) :
    (SpongeState.finalize perm s outLen).length = outLen := by
  unfold SpongeState.finalize
  exact squeeze_length perm hperm s.rate h1 h2 outLen _ (hperm _)

theorem plainDigest_length (perm : List Nat → List Nat)
    (hperm : ∀ b, (perm b).length = 200) (rate delim : Nat)
    (data : List Nat) (outLen : Nat) (h1 : 0 < rate) (h2 : rate ≤ 200) :
    (plainDigest perm rate delim data outLen).length = outLen := by
  unfold plainDigest
  have hr : (SpongeState.update perm (initSponge rate delim) data).rate = rate := by
    rw [rate_stateUpdate]; rfl
  exact finalize_length perm hperm _ (by rw [hr]; exact h1) (by rw [hr]; exact h2) outLen

theorem update_of_committed (perm : List Nat → List Nat) (k : Keccak)
    (input : List Nat) (h : k.slow_path = true) :
    Keccak.update perm k input
      = { k with state := SpongeState.update perm k.state input } := by
  simp [Keccak.update, h]

theorem update_of_small (perm : List Nat → List Nat) (k : Keccak)
    (input : List Nat) (h : k.slow_path = false)
    (hlen : k.raw_data.length + input.length ≤ 100000) :
    Keccak.update perm k input = { k with raw_data := k.raw_data ++ input } := by
  simp [Keccak.update, h, show ¬(k.raw_data.length + input.length > 100000) from by omega]

theorem update_of_flush (perm : List Nat → List Nat) (k : Keccak)
    (input : List Nat) (h : k.slow_path = false)
    (hlen : k.raw_data.length + input.length > 100000) :
    Keccak.update perm k input
      = { k with slow_path := true
                 state := SpongeState.update perm
                   (SpongeState.update perm k.state k.raw_data) input } := by
  simp [Keccak.update, h, hlen]

theorem ZkInv_step (perm : List Nat → List Nat) (s0 : SpongeState)
    (acc : List Nat) (k : Keccak) (i : List Nat) (h : ZkInv perm s0 acc k) :
    ZkInv perm s0 (acc ++ i) (Keccak.update perm k i) := by
  rcases h with ⟨h1, h2, h3, h4⟩ | ⟨h1, h2, h4⟩
  · by_cases hlen : k.raw_data.length + i.length > 100000
    · right
      rw [update_of_flush perm k i h1 hlen]
      refine ⟨rfl, ?_, ?_⟩
      · simp only [h2, h3, ← stateUpdate_append]
      · simpa [h2] using h4
    · left
      rw [update_of_small perm k i h1 (by omega)]
      refine ⟨h1, by simp [h2], h3, ?_⟩
      rw [h2] at hlen
      simp only [List.length_append]
      omega
  · right
    rw [update_of_committed perm k i h1]
    exact ⟨h1, by rw [h2, stateUpdate_append], h4⟩

theorem ZkInv_run (perm : List Nat → List Nat) (s0 : SpongeState) :
    ∀ (inputs : List (List Nat)) (acc : List Nat) (k : Keccak),
      ZkInv perm s0 acc k →
      ZkInv perm s0 (acc ++ concatAll inputs) (runUpdates perm k inputs)
  | [], acc, k, h => by simpa [runUpdates, concatAll] using h
  | i :: rest, acc, k, h => by
      have hstep := ZkInv_step perm s0 acc k i h
      have hrec := ZkInv_run perm s0 rest (acc ++ i) (Keccak.update perm k i) hstep
      simpa [runUpdates, concatAll, List.append_assoc] using hrec

theorem ZkInv_new (perm : List Nat → List Nat) (bits : Nat) :
    ZkInv perm (initSponge (bits_to_rate bits) Keccak.DELIM) [] (Keccak.new bits) :=
  Or.inl ⟨rfl, rfl, rfl, by simp⟩

theorem ZkInv_reachable (perm : List Nat → List Nat) (bits : Nat)
    (inputs : List (List Nat)) :
    ZkInv perm (initSponge (bits_to_rate bits) Keccak.DELIM) (concatAll inputs)
      (runUpdates perm (Keccak.new bits) inputs) := by
  simpa using ZkInv_run perm _ inputs [] (Keccak.new bits) (ZkInv_new perm bits)

theorem runHost_state (perm : List Nat → List Nat) :
    ∀ (inputs : List (List Nat)) (k : Keccak),
      (runHost perm k inputs).state = runSponge perm k.state inputs
  | [], _ => rfl
  | i :: rest, k => by
      have h1 : runHost perm k (i :: rest)
          = runHost perm (Keccak.updateHost perm k i) rest := rfl
      have h2 : runSponge perm k.state (i :: rest)
          = runSponge perm (SpongeState.update perm k.state i) rest := rfl
      rw [h1, h2, runHost_state perm rest]
      rfl

theorem length_new_raw (bits : Nat) : (Keccak.new bits).raw_data.length = 0 := rfl

/-! ### Claim theorems -/

/-- C9: each of the four constructors `v224`, `v256`, `v384`, `v512` builds a
hasher whose sponge engine has delimiter `0x01` and rate
`200 - 2*(bits/8)` bytes for its security level. -/
theorem constructors_rate_delim :
    (Keccak.v224.state.rate = 200 - 2 * (224 / 8) ∧ Keccak.v224.state.rate = 144
      ∧ Keccak.v224.state.delim = 0x01)
    ∧ (Keccak.v256.state.rate = 200 - 2 * (256 / 8) ∧ Keccak.v256.state.rate = 136
      ∧ Keccak.v256.state.delim = 0x01)
    ∧ (Keccak.v384.state.rate = 200 - 2 * (384 / 8) ∧ Keccak.v384.state.rate = 104
      ∧ Keccak.v384.state.delim = 0x01)
    ∧ (Keccak.v512.state.rate = 200 - 2 * (512 / 8) ∧ Keccak.v512.state.rate = 72
      ∧ Keccak.v512.state.delim = 0x01) := by
  decide

/-- C2: in the zkVM `update`, while uncommitted, an input that would push the
raw buffer past 100 000 bytes sets the committed flag, flushes the whole raw
buffer into the sponge engine once, and forwards the new input directly to
the sponge without appending it to the raw buffer; otherwise the input is
only appended to the raw buffer. -/
theorem zkvm_update_routing (perm : List Nat → List Nat) (k : Keccak)
    (input : List Nat) (h : k.slow_path = false) :
    (k.raw_data.length + input.length > 100000 →
      Keccak.update perm k input
        = { k with slow_path := true
                   state := SpongeState.update perm
                     (SpongeState.update perm k.state k.raw_data) input })
    ∧ (k.raw_data.length + input.length ≤ 100000 →
      Keccak.update perm k input = { k with raw_data := k.raw_data ++ input }) :=
  ⟨fun hlen => update_of_flush perm k input h hlen,
   fun hlen => update_of_small perm k input h hlen⟩

/-- Witness for C2: the routing theorem applied to a fresh `v256` hasher, once
with a threshold-exceeding input and once with a small input. -/
theorem zkvm_update_routing_app :
    Keccak.update cperm (Keccak.new 256) (List.replicate 100001 0)
      = { Keccak.new 256 with
          slow_path := true,
          state := SpongeState.update cperm
            (SpongeState.update cperm (Keccak.new 256).state (Keccak.new 256).raw_data)
            (List.replicate 100001 0) }
    ∧ Keccak.update cperm (Keccak.new 256) [1, 2]
      = { Keccak.new 256 with raw_data := (Keccak.new 256).raw_data ++ [1, 2] } :=
  ⟨(zkvm_update_routing cperm (Keccak.new 256) (List.replicate 100001 0) rfl).1
      (by rw [length_new_raw, List.length_replicate]; omega),
   (zkvm_update_routing cperm (Keccak.new 256) [1, 2] rfl).2 (by decide)⟩

/-- C3: the zkVM `finalize` on a never-committed hasher invokes the external
accelerated primitive over the entire raw buffer with the delimiter `0x01`
and writes the digest into the output buffer; on a committed hasher it
delegates to the sponge engine's `finalize`. -/
theorem zkvm_finalize_dispatch (perm : List Nat → List Nat)
    (kd : List Nat → Nat → Option (List Nat)) (k : Keccak) (outLen : Nat) :
    (k.slow_path = false → ∀ d, kd k.raw_data Keccak.DELIM = some d →
        d.length = outLen →
        Keccak.finalize perm kd k outLen = FinalizeResult.ok d)
    ∧ (k.slow_path = true →
        Keccak.finalize perm kd k outLen
          = FinalizeResult.ok (SpongeState.finalize perm k.state outLen)) := by
  constructor
  · intro h d hd hl
    simp [Keccak.finalize, h, hd, hl]
  · intro h
    simp [Keccak.finalize, h]

/-- Witness for C3: the dispatch theorem applied to an uncommitted and to a
committed concrete hasher. -/
theorem zkvm_finalize_dispatch_app :
    Keccak.finalize cperm (fun _ _ => some [7, 7]) (Keccak.new 256) 2
      = FinalizeResult.ok [7, 7]
    ∧ Keccak.finalize cperm (fun _ _ => some [7, 7])
        { Keccak.new 256 with slow_path := true } 2
      = FinalizeResult.ok (SpongeState.finalize cperm (Keccak.new 256).state 2) :=
  ⟨(zkvm_finalize_dispatch cperm (fun _ _ => some [7, 7]) (Keccak.new 256) 2).1
      rfl [7, 7] rfl rfl,
   (zkvm_finalize_dispatch cperm (fun _ _ => some [7, 7])
      { Keccak.new 256 with slow_path := true } 2).2 rfl⟩

/-- C4: the committed flag starts false and is monotonic under `update`; once
it is true, `update` never writes the raw buffer and forwards all input
directly to the sponge engine, and in every reachable committed state the
sponge has absorbed exactly the concatenation of all inputs (the raw buffer
having been flushed into it exactly once). -/
theorem slow_path_monotone (perm : List Nat → List Nat) (bits : Nat) :
    (Keccak.new bits).slow_path = false
    ∧ (∀ (k : Keccak) (input : List Nat), k.slow_path = true →
        (Keccak.update perm k input).slow_path = true
        ∧ (Keccak.update perm k input).raw_data = k.raw_data
        ∧ (Keccak.update perm k input).state
            = SpongeState.update perm k.state input)
    ∧ (∀ inputs : List (List Nat),
        (runUpdates perm (Keccak.new bits) inputs).slow_path = true →
        (runUpdates perm (Keccak.new bits) inputs).state
          = SpongeState.update perm (initSponge (bits_to_rate bits) Keccak.DELIM)
              (concatAll inputs)) := by
  refine ⟨rfl, ?_, ?_⟩
  · intro k input h
    rw [update_of_committed perm k input h]
    exact ⟨h, rfl, rfl⟩
  · intro inputs h
    rcases ZkInv_reachable perm bits inputs with ⟨h1, _, _, _⟩ | ⟨_, h2, _⟩
    · simp [h] at h1
    · exact h2

/-- Witness for C4: the monotonicity theorem applied at a fresh hasher, at a
concrete committed hasher, and at a run whose single input crosses the
threshold. -/
theorem slow_path_monotone_app :
    (Keccak.new 256).slow_path = false
    ∧ (Keccak.update cperm { Keccak.new 256 with slow_path := true } [5]).slow_path
        = true
    ∧ (Keccak.update cperm { Keccak.new 256 with slow_path := true } [5]).raw_data
        = ({ Keccak.new 256 with slow_path := true } : Keccak).raw_data
    ∧ (runUpdates cperm (Keccak.new 256) [List.replicate 100001 0]).state
        = SpongeState.update cperm (initSponge (bits_to_rate 256) Keccak.DELIM)
            (concatAll [List.replicate 100001 0]) :=
  ⟨(slow_path_monotone cperm 256).1,
   ((slow_path_monotone cperm 256).2.1 _ [5] rfl).1,
   ((slow_path_monotone cperm 256).2.1 _ [5] rfl).2.1,
   (slow_path_monotone cperm 256).2.2 [List.replicate 100001 0] (by
      unfold runUpdates
      rw [List.foldl_cons, List.foldl_nil,
        update_of_flush cperm (Keccak.new 256) _ rfl
          (by rw [length_new_raw, List.length_replicate]; omega)])⟩

/-- C6: if the external accelerated primitive fails on a fast-path finalize,
the finalize aborts fatally and never writes a digest to the output buffer. -/
theorem primitive_failure_fatal (perm : List Nat → List Nat)
    (kd : List Nat → Nat → Option (List Nat)) (k : Keccak) (outLen : Nat)
    (h : k.slow_path = false) (hkd : kd k.raw_data Keccak.DELIM = none) :
    Keccak.finalize perm kd k outLen = FinalizeResult.fatal
    ∧ ∀ d, Keccak.finalize perm kd k outLen ≠ FinalizeResult.ok d := by
  have he : Keccak.finalize perm kd k outLen = FinalizeResult.fatal := by
    simp [Keccak.finalize, h, hkd]
  exact ⟨he, fun d => by simp [he]⟩

/-- Witness for C6: the failure theorem applied to a fresh hasher and an
always-failing primitive. -/
theorem primitive_failure_fatal_app :
    Keccak.finalize cperm (fun _ _ => none) (Keccak.new 256) 32
      = FinalizeResult.fatal :=
  (primitive_failure_fatal cperm (fun _ _ => none) (Keccak.new 256) 32 rfl rfl).1

/-- C7: the raw buffer never shrinks across `update` calls, and in every
state reachable from a fresh hasher its length is at most the 100 000-byte
threshold (so in particular it exceeds the threshold at most transiently,
which in fact never happens). -/
theorem raw_buffer_bounds (perm : List Nat → List Nat) (bits : Nat) :
    (∀ (k : Keccak) (input : List Nat), ∃ t,
        (Keccak.update perm k input).raw_data = k.raw_data ++ t)
    ∧ ∀ inputs : List (List Nat),
        (runUpdates perm (Keccak.new bits) inputs).raw_data.length ≤ 100000 := by
  constructor
  · intro k input
    by_cases h : k.slow_path = true
    · exact ⟨[], by rw [update_of_committed perm k input h]; simp⟩
    · have h' : k.slow_path = false := by simpa using h
      by_cases hlen : k.raw_data.length + input.length > 100000
      · exact ⟨[], by rw [update_of_flush perm k input h' hlen]; simp⟩
      · exact ⟨input, by rw [update_of_small perm k input h' (by omega)]⟩
  · intro inputs
    rcases ZkInv_reachable perm bits inputs with ⟨_, h2, _, h4⟩ | ⟨_, _, h4⟩
    · rw [h2]; exact h4
    · exact h4

/-- C8: on non-zkVM targets every `update` forwards its input directly to the
sponge engine, every `finalize` delegates to the sponge engine, and a whole
call sequence behaves exactly like the plain sponge engine on that
sequence. -/
theorem host_path_equals_sponge (perm : List Nat → List Nat) (bits : Nat) :
    (∀ (k : Keccak) (input : List Nat),
        Keccak.updateHost perm k input
          = { k with state := SpongeState.update perm k.state input })
    ∧ (∀ (k : Keccak) (outLen : Nat),
        Keccak.finalizeHost perm k outLen
          = SpongeState.finalize perm k.state outLen)
    ∧ ∀ (inputs : List (List Nat)) (outLen : Nat),
        Keccak.finalizeHost perm (runHost perm (Keccak.new bits) inputs) outLen
          = SpongeState.finalize perm
              (runSponge perm (initSponge (bits_to_rate bits) Keccak.DELIM) inputs)
              outLen := by
  refine ⟨fun _ _ => rfl, fun _ _ => rfl, fun inputs outLen => ?_⟩
  unfold Keccak.finalizeHost
  rw [runHost_state]
  rfl

/-- C10: on the fast path, `finalize` writes the primitive's digest only when
the output buffer length equals the digest length; any other length makes
the copy abort instead of truncating or extending the digest. -/
theorem fast_path_length_exact (perm : List Nat → List Nat)
    (kd : List Nat → Nat → Option (List Nat)) (k : Keccak) (outLen : Nat)
    (d : List Nat) (h : k.slow_path = false)
    (hkd : kd k.raw_data Keccak.DELIM = some d) :
    (d.length = outLen → Keccak.finalize perm kd k outLen = FinalizeResult.ok d)
    ∧ (d.length ≠ outLen →
        Keccak.finalize perm kd k outLen = FinalizeResult.panicked
        ∧ ∀ d2, Keccak.finalize perm kd k outLen ≠ FinalizeResult.ok d2) := by
  constructor
  · intro hl
    simp [Keccak.finalize, h, hkd, hl]
  · intro hl
    have he : Keccak.finalize perm kd k outLen = FinalizeResult.panicked := by
      simp [Keccak.finalize, h, hkd, hl]
    exact ⟨he, fun d2 => by simp [he]⟩

/-- Witness for C10: the length-exactness theorem applied with a two-byte
digest to a matching and to a mismatched output buffer length. -/
theorem fast_path_length_exact_app :
    Keccak.finalize cperm (fun _ _ => some [3, 4]) (Keccak.new 256) 2
      = FinalizeResult.ok [3, 4]
    ∧ Keccak.finalize cperm (fun _ _ => some [3, 4]) (Keccak.new 256) 5
      = FinalizeResult.panicked :=
  ⟨(fast_path_length_exact cperm (fun _ _ => some [3, 4]) (Keccak.new 256) 2
      [3, 4] rfl rfl).1 rfl,
   ((fast_path_length_exact cperm (fun _ _ => some [3, 4]) (Keccak.new 256) 5
      [3, 4] rfl rfl).2 (by decide)).1⟩

/-- C1: for every sequence of `update` calls followed by one `finalize`, the
zkVM dual-path hasher produces exactly the digest the plain Sponge State
Engine produces for the concatenated input with the same delimiter, for any
total input length (below, at, or above the threshold, and straddling it
across calls), provided the external primitive meets its interface contract
of returning the sponge digest of its input at the standard output length. -/
theorem zkvm_paths_agree (perm : List Nat → List Nat)
    (kd : List Nat → Nat → Option (List Nat)) (bits outLen : Nat)
    (inputs : List (List Nat))
    (hperm : ∀ b, (perm b).length = 200)
    (hr1 : 0 < bits_to_rate bits) (hr2 : bits_to_rate bits ≤ 200)
    (hkd : ∀ data, kd data Keccak.DELIM
        = some (plainDigest perm (bits_to_rate bits) Keccak.DELIM data outLen)) :
    Keccak.finalize perm kd (runUpdates perm (Keccak.new bits) inputs) outLen
      = FinalizeResult.ok
          (plainDigest perm (bits_to_rate bits) Keccak.DELIM (concatAll inputs)
            outLen) := by
  rcases ZkInv_reachable perm bits inputs with ⟨h1, h2, _, _⟩ | ⟨h1, h2, _⟩
  · have hl : (plainDigest perm (bits_to_rate bits) Keccak.DELIM
        (concatAll inputs) outLen).length = outLen :=
      plainDigest_length perm hperm _ _ _ _ hr1 hr2
    simp [Keccak.finalize, h1, h2, hkd, hl]
  · simp [Keccak.finalize, h1, h2, plainDigest]

/-- Witness for C1: the path-agreement theorem applied to `v256`, a concrete
permutation, the contract-satisfying primitive and a concrete update
sequence. -/
theorem zkvm_paths_agree_app :
    Keccak.finalize cperm
      (fun data _ => some (plainDigest cperm (bits_to_rate 256) Keccak.DELIM data 32))
      (runUpdates cperm (Keccak.new 256) [[1, 2, 3], [4]]) 32
      = FinalizeResult.ok
          (plainDigest cperm (bits_to_rate 256) Keccak.DELIM
            (concatAll [[1, 2, 3], [4]]) 32) :=
  zkvm_paths_agree cperm
    (fun data _ => some (plainDigest cperm (bits_to_rate 256) Keccak.DELIM data 32))
    256 32 [[1, 2, 3], [4]] (fun _ => rfl) (by decide) (by decide) (fun _ => rfl)

/-- C5: two consecutive `update` calls with `a` then `b` followed by
`finalize` give the same digest as a single `update` with `a ++ b`, on both
the zkVM path (whatever the split does to the threshold) and the non-zkVM
path. -/
theorem digest_concat (perm : List Nat → List Nat)
    (kd : List Nat → Nat → Option (List Nat)) (k : Keccak)
    (a b : List Nat) (outLen : Nat) :
    Keccak.finalize perm kd (Keccak.update perm (Keccak.update perm k a) b) outLen
      = Keccak.finalize perm kd (Keccak.update perm k (a ++ b)) outLen
    ∧ Keccak.finalizeHost perm
        (Keccak.updateHost perm (Keccak.updateHost perm k a) b) outLen
      = Keccak.finalizeHost perm (Keccak.updateHost perm k (a ++ b)) outLen := by
  constructor
  · cases hsp : k.slow_path with
    | true =>
        rw [update_of_committed perm k a hsp,
            update_of_committed perm
              { k with state := SpongeState.update perm k.state a } b hsp,
            update_of_committed perm k (a ++ b) hsp,
            stateUpdate_append]
    | false =>
        by_cases h1 : k.raw_data.length + a.length > 100000
        · rw [update_of_flush perm k a hsp h1,
              update_of_committed perm
                { k with
                  slow_path := true,
                  state := SpongeState.update perm
                    (SpongeState.update perm k.state k.raw_data) a } b rfl,
              update_of_flush perm k (a ++ b) hsp (by rw [List.length_append]; omega),
              stateUpdate_append perm
                (SpongeState.update perm k.state k.raw_data) a b]
        · by_cases h2 : k.raw_data.length + a.length + b.length > 100000
          · rw [update_of_small perm k a hsp (by omega),
                update_of_flush perm { k with raw_data := k.raw_data ++ a } b hsp
                  (by simp only [List.length_append]; omega),
                update_of_flush perm k (a ++ b) hsp
                  (by rw [List.length_append]; omega)]
            have hstate :
                SpongeState.update perm
                    (SpongeState.update perm k.state (k.raw_data ++ a)) b
                  = SpongeState.update perm
                      (SpongeState.update perm k.state k.raw_data) (a ++ b) := by
              rw [stateUpdate_append perm k.state k.raw_data a,
                  stateUpdate_append perm
                    (SpongeState.update perm k.state k.raw_data) a b]
            simp [Keccak.finalize, hstate]
          · rw [update_of_small perm k a hsp (by omega),
                update_of_small perm { k with raw_data := k.raw_data ++ a } b hsp
                  (by simp only [List.length_append]; omega),
                update_of_small perm k (a ++ b) hsp
                  (by rw [List.length_append]; omega),
                ← List.append_assoc]
  · simp [Keccak.finalizeHost, Keccak.updateHost, stateUpdate_append]
